import Mathlib

set_option maxRecDepth 10000

/-!
# Verification of the ShabdSetu chunk-processing core

A shallow embedding, over `List Char`, of the text chunker, the parallel
chunk dispatcher with its fallback/retry handling, the proofreading retry
loop, the batched OCR assembly, and the per-instance rate limiter of
`src/processors/base_processor.py`, `src/processors/proofreading_processor.py`
and `src/processors/ocr_processor.py`.

Conventions:
* Python strings are `List Char`; `None`-able strings are `Option (List Char)`.
* Timing (sleeps, backoff) is erased except where a claim is about it; the
  rate limiter is modelled with explicit rational clock values.
* A call to the external generative model is an opaque outcome (`GenResult`),
  indexed by the number of calls already made, so that "always raises"
  transforms are expressible.
-/

/-- Python's `str.isspace` / `str.strip` whitespace set (Unicode whitespace
code points stripped by `str.strip()`). -/
def pyIsSpace (c : Char) : Bool :=
  (9 ≤ c.toNat && c.toNat ≤ 13) || (28 ≤ c.toNat && c.toNat ≤ 31) || c.toNat == 32 ||
  c.toNat == 133 || c.toNat == 160 || c.toNat == 5760 ||
  (8192 ≤ c.toNat && c.toNat ≤ 8202) || c.toNat == 8232 || c.toNat == 8233 ||
  c.toNat == 8239 || c.toNat == 8287 || c.toNat == 12288

/-- Python `text.strip()`: remove leading and trailing whitespace. -/
def pyStrip (l : List Char) : List Char :=
  ((l.dropWhile pyIsSpace).reverse.dropWhile pyIsSpace).reverse

/-- Python `sub in text` (substring containment). -/
def containsSub (sep : List Char) : List Char → Bool
  | [] => sep.isEmpty
  | c :: rest => sep.isPrefixOf (c :: rest) || containsSub sep rest

/-- Fuel-driven worker for Python `text.split(sep)` (non-empty `sep`).
The fuel is an upper bound on the text length, so the fuel-exhausted
case is unreachable at `fuel = text.length`. -/
def pySplitGo (sep : List Char) : Nat → List Char → List (List Char)
  | _, [] => [[]]
  | 0, t => [t]
  | fuel + 1, c :: rest =>
    if sep.isPrefixOf (c :: rest) then
      [] :: pySplitGo sep fuel ((c :: rest).drop sep.length)
    else
      match pySplitGo sep fuel rest with
      | [] => [[c]]
      | piece :: pieces => (c :: piece) :: pieces

/-- Python `text.split(sep)` for a non-empty separator. -/
def pySplit (sep text : List Char) : List (List Char) :=
  pySplitGo sep text.length text

/-- Python `sep.join(parts)`. -/
def pyJoin (sep : List Char) : List (List Char) → List Char
  | [] => []
  | [p] => p
  | p :: ps => p ++ sep ++ pyJoin sep ps

/-- Python `text.rfind(ch, start, stop)` for a single character: the highest
index in `[start, stop)` holding `ch`, else `-1`. -/
def rfind (l : List Char) (c : Char) (start stop : Nat) : Int :=
  (List.range' start (stop - start)).foldl
    (fun (acc : Int) (i : Nat) => if l[i]? = some c then (i : Int) else acc) (-1)

/-- The separator `'\n\n'` used between paragraphs (base_processor.py lines 58, 76-78). -/
def nl2 : List Char := ['\n', '\n']

/-- The split-point computation of one `_force_split` iteration
(base_processor.py lines 147-160): `search_start = max(0, max_chunk_size - 500)`
(natural subtraction), prefer a newline, then a space, in the trailing window,
else cut at `max_chunk_size`. -/
def splitPoint (remaining : List Char) (maxSize : Nat) : Nat :=
  let searchStart := maxSize - 500
  let lastNewline := rfind remaining '\n' searchStart maxSize
  let lastSpace := rfind remaining ' ' searchStart maxSize
  if lastNewline > (searchStart : Int) then lastNewline.toNat + 1
  else if lastSpace > (searchStart : Int) then lastSpace.toNat + 1
  else maxSize

/-- `DocumentProcessor._force_split` (base_processor.py lines 138-168), the
`while len(remaining) > max_chunk_size` loop, with fuel bounding the number
of iterations (each iteration removes at least one character, so
`fuel = text.length` suffices; the fuel-exhausted case mirrors the
post-loop `if remaining` append). -/
def forceSplitGo (maxSize : Nat) : Nat → List Char → List (List Char)
  | 0, remaining => if remaining.isEmpty then [] else [remaining]
  | fuel + 1, remaining =>
    if remaining.length ≤ maxSize then
      (if remaining.isEmpty then [] else [remaining])
    else
      pyStrip (remaining.take (splitPoint remaining maxSize)) ::
        forceSplitGo maxSize fuel (pyStrip (remaining.drop (splitPoint remaining maxSize)))

/-- `DocumentProcessor._force_split(text, max_chunk_size)`. -/
def force_split (text : List Char) (maxSize : Nat) : List (List Char) :=
  forceSplitGo maxSize text.length text

/-- The `(chunks, current_chunk)` accumulator threaded through the loops of
`chunk_text` and `_split_large_text`. -/
structure ChunkState where
  chunks : List (List Char)
  current : List Char
deriving DecidableEq

/-- The delimiter priority list of `_split_large_text` (base_processor.py line 100). -/
def delimitersList : List (List Char) :=
  [['।'], ['॥'], ['।', ' '], ['?', ' '], ['!', ' '], ['.', ' '], ['\n'], ['\t'], [' ']]

/-- One iteration of the segment loop of `_split_large_text`
(base_processor.py lines 112-128), applied to `segment_with_delim`. -/
def slsStep (maxSize : Nat) (st : ChunkState) (swd : List Char) : ChunkState :=
  if maxSize < swd.length then
    let st1 : ChunkState :=
      if st.current.isEmpty then st else ⟨st.chunks ++ [pyStrip st.current], []⟩
    ⟨st1.chunks ++ force_split swd maxSize, []⟩
  else if maxSize < st.current.length + swd.length then
    ⟨st.chunks ++ (if st.current.isEmpty then [] else [pyStrip st.current]), swd⟩
  else
    ⟨st.chunks, st.current ++ swd⟩

/-- The `for i, segment in enumerate(segments)` loop of `_split_large_text`:
the index is only used to append the delimiter back to every segment except
the last, which is here expressed by pattern matching on the tail. -/
def slsRun (maxSize : Nat) (bestDelim : List Char) : ChunkState → List (List Char) → ChunkState
  | st, [] => st
  | st, [segment] => slsStep maxSize st segment
  | st, segment :: rest => slsRun maxSize bestDelim (slsStep maxSize st (segment ++ bestDelim)) rest

/-- `DocumentProcessor._split_large_text` (base_processor.py lines 93-136):
pick the first delimiter of the priority list occurring in the text, split on
it and greedily repack, else force-split. -/
def split_large_text (text : List Char) (maxSize : Nat) : List (List Char) :=
  match delimitersList.find? (fun d => containsSub d text) with
  | some bestDelim =>
    let segments := pySplit bestDelim text
    let st := slsRun maxSize bestDelim ⟨[], []⟩ segments
    if (pyStrip st.current).isEmpty then st.chunks else st.chunks ++ [pyStrip st.current]
  | none => force_split text maxSize

/-- One iteration of the paragraph loop of `chunk_text`
(base_processor.py lines 60-78). -/
def chunkStep (maxSize : Nat) (st : ChunkState) (paragraph : List Char) : ChunkState :=
  if maxSize < paragraph.length then
    let st1 : ChunkState :=
      if st.current.isEmpty then st else ⟨st.chunks ++ [pyStrip st.current], []⟩
    ⟨st1.chunks ++ split_large_text paragraph maxSize, []⟩
  else if maxSize < st.current.length + paragraph.length + 2 then
    ⟨st.chunks ++ (if st.current.isEmpty then [] else [pyStrip st.current]), paragraph ++ nl2⟩
  else
    ⟨st.chunks, st.current ++ paragraph ++ nl2⟩

/-- `DocumentProcessor.chunk_text` (base_processor.py lines 45-91): split on
paragraph separators, greedily repack, flush the trailing chunk if its strip
is non-empty, then the final safety pass force-splitting any oversized chunk. -/
def chunk_text (text : List Char) (maxSize : Nat) : List (List Char) :=
  let paragraphs := pySplit nl2 text
  let st := paragraphs.foldl (chunkStep maxSize) ⟨[], []⟩
  let chunks :=
    if (pyStrip st.current).isEmpty then st.chunks else st.chunks ++ [pyStrip st.current]
  (chunks.map (fun c => if maxSize < c.length then force_split c maxSize else [c])).flatten

/-- Outcome of one call to the external generative model
(`self.model.generate_content(...)`): a response text, or a raised exception
carrying its message string. -/
inductive GenResult where
  | text (t : List Char)
  | raise (msg : List Char)
deriving DecidableEq

/-- Whether a `GenResult` is a raised exception. -/
def GenResult.isRaise : GenResult → Bool
  | .text _ => false
  | .raise _ => true

/-- Python `str.lower()` (ASCII case folding; all classification literals in
the source are ASCII). -/
def pyLower (l : List Char) : List Char := l.map Char.toLower

def str504 : List Char := "504".toList

def strTimeout : List Char := "timeout".toList

def strTimedOut : List Char := "timed out".toList

def str429 : List Char := "429".toList

def strQuota : List Char := "quota".toList

def strRate : List Char := "rate".toList

/-- The transient-timeout classification of `proofread_chunk` /
`translate_chunk`: `'504' in str(e) or 'timeout' in error_msg or
'timed out' in error_msg` (proofreading_processor.py line 101). -/
def isTimeoutErr (msg : List Char) : Bool :=
  containsSub str504 msg || containsSub strTimeout (pyLower msg) ||
    containsSub strTimedOut (pyLower msg)

/-- The rate-limit classification of `process_chunks_parallel`:
`'429' in str(e) or 'quota' in str(e).lower() or 'rate' in str(e).lower()`
(base_processor.py line 209). -/
def isRateLimitMsg (msg : List Char) : Bool :=
  containsSub str429 msg || containsSub strQuota (pyLower msg) ||
    containsSub strRate (pyLower msg)

def markerCorrected : List Char := "CORRECTED_TEXT:".toList

def sectionChanges : List Char := "CHANGES_MADE:".toList

def sectionFormatting : List Char := "FORMATTING_APPLIED:".toList

def prefixesToRemove : List (List Char) :=
  ["TECHNICAL ERRORS FOUND:".toList, "CHANGES_MADE:".toList,
   "FORMATTING_APPLIED:".toList, "No technical corrections needed".toList,
   "No obvious technical errors found".toList]

/-- `ProofreadingProcessor.extract_corrected_text`
(proofreading_processor.py lines 119-151): returns `none` for Python `None`. -/
def extract_corrected_text (ai : List Char) : Option (List Char) :=
  let viaMarker : Option (List Char) :=
    if containsSub markerCorrected ai then
      let parts := pySplit markerCorrected ai
      if 1 < parts.length then
        let part0 := parts.getD 1 []
        let part1 :=
          if containsSub sectionChanges part0 then (pySplit sectionChanges part0).getD 0 []
          else part0
        let part2 :=
          if containsSub sectionFormatting part1 then (pySplit sectionFormatting part1).getD 0 []
          else part1
        let ct := pyStrip part2
        if ct.isEmpty then none else some ct
      else none
    else none
  match viaMarker with
  | some r => some r
  | none =>
    let cleaned := pyStrip ai
    let cleaned2 := prefixesToRemove.foldl
      (fun acc p => if p.isPrefixOf acc then pyStrip (acc.drop p.length) else acc) cleaned
    if 50 < cleaned2.length then some cleaned2 else none

/-- The `for attempt in range(max_retries)` loop of
`ProofreadingProcessor.proofread_chunk` (proofreading_processor.py lines
84-117), with backoff sleeps erased.  Arguments: calls made so far, attempts
remaining.  Returns the result (Python `str` or `None`) and the total number
of calls made to the external model.  On an exception, both the
timeout branch and the generic branch continue while attempts remain
(`attempt < max_retries - 1`) and otherwise return the original chunk. -/
def proofreadRun (gen : Nat → GenResult) (chunk : List Char) : Nat → Nat → Option (List Char) × Nat
  | calls, 0 => (some chunk, calls)
  | calls, remaining + 1 =>
    match gen calls with
    | .text t => (extract_corrected_text t, calls + 1)
    | .raise msg =>
      if isTimeoutErr msg then
        if 0 < remaining then proofreadRun gen chunk (calls + 1) remaining
        else (some chunk, calls + 1)
      else
        if 0 < remaining then proofreadRun gen chunk (calls + 1) remaining
        else (some chunk, calls + 1)

/-- `ProofreadingProcessor.proofread_chunk` with `max_retries = 3`, paired
with the number of calls made to the external model. -/
def proofread_chunk (gen : Nat → GenResult) (chunk : List Char) : Option (List Char) × Nat :=
  proofreadRun gen chunk 0 3

/-- Outcome of one invocation of `process_func` as seen by
`process_chunks_parallel`: a returned value (possibly Python `None`), or a
raised exception with its message. -/
inductive PyResult where
  | ok (val : Option (List Char))
  | exn (msg : List Char)
deriving DecidableEq

/-- Whether a `PyResult` is a raised exception. -/
def PyResult.isExn : PyResult → Bool
  | .ok _ => false
  | .exn _ => true

/-- Python `result if result else chunks[index]` (base_processor.py
lines 207, 214): `None` and the empty string are falsy. -/
def pyOrElse (v : Option (List Char)) (fallback : List Char) : List Char :=
  match v with
  | some s => if s.isEmpty then fallback else s
  | none => fallback

/-- Handling of one completed future in `process_chunks_parallel`
(base_processor.py lines 205-220): on success keep the result if truthy else
the original chunk; on a rate-limit-classified exception retry the transform
once synchronously, falling back to the original chunk; on any other
exception fall back to the original chunk.  `process_func` is deterministic
here, so the retry re-invokes the same function. -/
def slotOutcome (proc : List Char → PyResult) (chunk : List Char) : List Char :=
  match proc chunk with
  | .ok v => pyOrElse v chunk
  | .exn m =>
    if isRateLimitMsg m then
      match proc chunk with
      | .ok v => pyOrElse v chunk
      | .exn _ => chunk
    else chunk

/-- Same per-unit handling as `slotOutcome`, where the transform also
reports how many calls it made to the external model, so retry counts can be
stated (base_processor.py lines 205-220). -/
def slotRunCount (proc : List Char → PyResult × Nat) (chunk : List Char) : List Char × Nat :=
  match proc chunk with
  | (.ok v, c) => (pyOrElse v chunk, c)
  | (.exn m, c) =>
    if isRateLimitMsg m then
      match proc chunk with
      | (.ok v, c2) => (pyOrElse v chunk, c + c2)
      | (.exn _, c2) => (chunk, c + c2)
    else (chunk, c)

/-- `proofread_chunk` packaged as the `process_func` handed to the
dispatcher, with its call count: it returns normally (never raises), as in
proofreading_processor.py lines 98-117 every exception is caught inside the
retry loop. -/
def proofreadProc (gen : Nat → GenResult) : List Char → PyResult × Nat :=
  fun ch => (PyResult.ok (proofread_chunk gen ch).1, (proofread_chunk gen ch).2)

/-- The `for future in as_completed(...)` loop of `process_chunks_parallel`
(base_processor.py lines 200-220): `order` is the completion order of the
futures (`as_completed` yields them in a nondeterministic order); each
completion writes its slot `results[index]`. -/
def runOrder (chunks : List (List Char)) (proc : List Char → PyResult) :
    List Nat → List (Option (List Char)) → List (Option (List Char))
  | [], slots => slots
  | i :: rest, slots =>
    runOrder chunks proc rest (slots.set i (some (slotOutcome proc (chunks.getD i []))))

/-- `DocumentProcessor.process_chunks_parallel` (base_processor.py lines
181-226): `results = [None] * len(chunks)` filled slot-by-slot in completion
order `order` (a permutation of the indices), then returned.  The trailing
`.map` reads the filled slots (all slots are written when `order` covers
every index). -/
def process_chunks_parallel (chunks : List (List Char)) (proc : List Char → PyResult)
    (order : List Nat) : List (List Char) :=
  (runOrder chunks proc order (List.replicate chunks.length none)).map (fun o => o.getD [])

/-- `OCRProcessor.process_page` (ocr_processor.py lines 73-83) applied to the
text extracted for one page: `return text if text.strip() else ""` (a raised
extraction error is caught and also yields `""`). -/
def process_page (t : List Char) : List Char := if (pyStrip t).isEmpty then [] else t

/-- Python `range(start, stop, step)` for positive step, as used by the
batch loop `for start_idx in range(0, total_pages, BATCH_SIZE)`
(ocr_processor.py line 105). -/
def rangeStep (start stop step : Nat) : List Nat :=
  (List.range ((stop - start + step - 1) / step)).map (fun k => start + k * step)

/-- The batch sizes produced by the batch loop of `perform_ocr`:
`end_idx = min(start_idx + BATCH_SIZE, total_pages)` (ocr_processor.py line 106). -/
def batchSizes (total size : Nat) : List Nat :=
  (rangeStep 0 total size).map (fun s => min (s + size) total - s)

/-- One write `results[page_num] = text` into the results dictionary of
`perform_ocr` (ocr_processor.py line 141). -/
def ocrInsert (m : Nat → Option (List Char)) (p : Nat × List Char) : Nat → Option (List Char) :=
  fun j => if j = p.1 then some p.2 else m j

/-- The sequence of dictionary writes performed across all batches of
`perform_ocr`, in completion order. -/
def runInserts : List (Nat × List Char) → (Nat → Option (List Char)) → Nat → Option (List Char)
  | [], m => m
  | p :: rest, m => runInserts rest (ocrInsert m p)

/-- The `(page index, processed page text)` pairs that `perform_ocr` writes:
page `i` always writes `process_page` of its extracted text. -/
def ocrPairs (pageTexts : List (List Char)) : List (Nat × List Char) :=
  (List.range pageTexts.length).map (fun i => (i, (pageTexts.map process_page).getD i []))

/-- `OCRProcessor.perform_ocr` (ocr_processor.py lines 85-159) with the
per-page extraction outcomes abstracted as `pageTexts` and the completion
order of all `results[page_num] = text` writes abstracted as `order`
(the batches run sequentially and each batch's futures complete in a
nondeterministic order, so every realizable write order is a permutation of
`ocrPairs pageTexts`; the model allows any such permutation).  Returns the
assembled entry list `[t for t in final_text if t]` (page-index order,
empty texts dropped) and the `'\n\n'`-joined output (lines 153-159). -/
def perform_ocr (pageTexts : List (List Char)) (order : List (Nat × List Char)) :
    List (List Char) × List Char :=
  let m := runInserts order (fun _ => none)
  let finalTexts := (List.range pageTexts.length).filterMap m
  let entries := finalTexts.filter (fun t => !t.isEmpty)
  (entries, pyJoin nl2 entries)

/-- The rate limiter state of one `DocumentProcessor` instance: the
`self.last_request_time` timestamp guarded by `self.rate_limit_lock`
(base_processor.py lines 28-29).  Each constructed processor instance owns
its own state (`__init__` sets instance attributes), and
`process_document_background` (process_document.py) constructs a fresh
processor per job. -/
structure RateLimiterState where
  lastRequestTime : ℚ
deriving DecidableEq

/-- `self.min_request_interval = 0.05` (base_processor.py line 30). -/
def min_request_interval : ℚ := 1 / 20

/-- The limiter state of a freshly constructed `DocumentProcessor`:
`self.last_request_time = 0` (base_processor.py line 29). -/
def limiterInit : RateLimiterState := ⟨0⟩

/-- The rate-limiting section of `process_with_rate_limit`
(base_processor.py lines 172-177), with the sleep made explicit on a
rational clock: called at time `now`, it returns the time at which the
section exits (after sleeping out the remainder of the interval, if any)
and the updated state (`self.last_request_time = time.time()` equals the
exit time). -/
def rateLimitAcquire (s : RateLimiterState) (now : ℚ) : ℚ × RateLimiterState :=
  let timeSinceLast := now - s.lastRequestTime
  if timeSinceLast < min_request_interval then
    let ret := now + (min_request_interval - timeSinceLast)
    (ret, ⟨ret⟩)
  else (now, ⟨now⟩)

/-- A transform whose external call always raises a rate-limit/quota error. -/
def alwaysQuota : Nat → GenResult :=
  fun _ => GenResult.raise ("429 You exceeded your current quota".toList)

/-- A transform whose external call always raises a transient-timeout error. -/
def alwaysTimeout : Nat → GenResult :=
  fun _ => GenResult.raise ("504 Deadline exceeded: request timed out".toList)

/-- The failing input of claim C5: a paragraph break followed by an
oversized paragraph. -/
def c5text : List Char := "\n\naaaa".toList

/-- The counterexample input of claim C6: three short paragraphs. -/
def c6text : List Char := "ab\n\nde\n\nf".toList

/-- The concrete part of the C7 scenario input. -/
def c7prefix : List Char := "Paragraph one.\n\nParagraph two is very long ".toList

/-- The C7 scenario input: a short first paragraph, then one long second
paragraph, total length 20000. -/
def c7text : List Char := c7prefix ++ List.replicate 19957 'x'

/-- The first paragraph of the C7 input. -/
def c7p1 : List Char := "Paragraph one.".toList

/-- The words of the second paragraph of the C7 input (with trailing space). -/
def c7w : List Char := "Paragraph two is very long ".toList

/-- The second paragraph of the C7 input. -/
def c7p2 : List Char := c7w ++ List.replicate 19957 'x'

/-!
## Generic helper lemmas
-/

/-- Invariant preservation along a left fold. -/
theorem foldl_invariant {α β : Type} (P : α → Prop) (f : α → β → α) :
    ∀ (l : List β) (init : α), P init → (∀ a b, b ∈ l → P a → P (f a b)) →
      P (l.foldl f init) := by
  intro l
  induction l with
  | nil => intro init h0 _; exact h0
  | cons b t ih =>
    intro init h0 hstep
    exact ih (f init b) (hstep init b (List.mem_cons_self b t) h0)
      (fun a b' hb' => hstep a b' (List.mem_cons_of_mem b hb'))

/-!
## Lemmas about the string primitives
-/

theorem dropWhile_all_false {p : Char → Bool} {l : List Char}
    (h : ∀ c ∈ l, p c = false) : l.dropWhile p = l := by
  cases l with
  | nil => rfl
  | cons a t =>
    rw [List.dropWhile_cons, h a (List.mem_cons_self a t)]
    simp

theorem pyStrip_length_le (l : List Char) : (pyStrip l).length ≤ l.length := by
  unfold pyStrip
  have h1 : (l.dropWhile pyIsSpace).length ≤ l.length :=
    List.Sublist.length_le (List.dropWhile_sublist _)
  have h2 : ((l.dropWhile pyIsSpace).reverse.dropWhile pyIsSpace).length ≤
      (l.dropWhile pyIsSpace).reverse.length :=
    List.Sublist.length_le (List.dropWhile_sublist _)
  simp only [List.length_reverse] at h2 ⊢
  omega

theorem pyStrip_eq_nil_iff (l : List Char) :
    pyStrip l = [] ↔ ∀ c ∈ l, pyIsSpace c = true := by
  unfold pyStrip
  rw [List.reverse_eq_nil_iff, List.dropWhile_eq_nil_iff]
  constructor
  · intro h c hc
    rcases List.mem_append.mp
        ((List.takeWhile_append_dropWhile (p := pyIsSpace) (l := l)) ▸ hc) with h1 | h1
    · exact List.mem_takeWhile_imp h1
    · exact h c (List.mem_reverse.mpr h1)
  · intro h c hc
    exact h c (List.dropWhile_subset _ (List.mem_reverse.mp hc))

theorem pyStrip_no_space {l : List Char} (h : ∀ c ∈ l, pyIsSpace c = false) :
    pyStrip l = l := by
  unfold pyStrip
  rw [dropWhile_all_false h,
    dropWhile_all_false (fun c hc => h c (List.mem_reverse.mp hc)),
    List.reverse_reverse]

theorem pyStrip_append_ws {l w : List Char} (hw : ∀ c ∈ w, pyIsSpace c = true) :
    pyStrip (l ++ w) = pyStrip l := by
  have hwnil : w.dropWhile pyIsSpace = [] := List.dropWhile_eq_nil_iff.mpr hw
  have hwrev : w.reverse.dropWhile pyIsSpace = [] :=
    List.dropWhile_eq_nil_iff.mpr (fun c hc => hw c (List.mem_reverse.mp hc))
  unfold pyStrip
  rw [List.dropWhile_append]
  by_cases he : (l.dropWhile pyIsSpace).isEmpty
  · rw [if_pos he, hwnil]
    rw [List.isEmpty_iff] at he
    rw [he]
  · rw [if_neg he, List.reverse_append, List.dropWhile_append, hwrev]
    simp

theorem containsSub_head_not_mem {c : Char} {s l : List Char} (h : c ∉ l) :
    containsSub (c :: s) l = false := by
  induction l with
  | nil => rfl
  | cons a t ih =>
    have hca : ¬(c = a) := fun he => h (he ▸ List.mem_cons_self a t)
    rw [containsSub, ih (fun hm => h (List.mem_cons_of_mem a hm))]
    simp [List.isPrefixOf, hca]

theorem containsSub_singleton_of_mem {c : Char} {l : List Char} (h : c ∈ l) :
    containsSub [c] l = true := by
  induction l with
  | nil => cases h
  | cons a t ih =>
    rw [containsSub]
    rcases List.mem_cons.mp h with he | hm
    · subst he; simp [List.isPrefixOf]
    · rw [ih hm]; simp

/-!
## Lemmas about rfind and the force-split loop
-/

theorem rfind_cases (l : List Char) (c : Char) (a b : Nat) :
    rfind l c a b = -1 ∨ ((a : Int) ≤ rfind l c a b ∧ rfind l c a b < (b : Int)) := by
  unfold rfind
  apply foldl_invariant
    (P := fun acc : Int => acc = -1 ∨ ((a : Int) ≤ acc ∧ acc < (b : Int)))
  · exact Or.inl rfl
  · intro acc i hi hacc
    by_cases hc : l[i]? = some c
    · rw [if_pos hc]
      rcases List.mem_range'_1.mp hi with ⟨h1, h2⟩
      right
      constructor <;> omega
    · rw [if_neg hc]; exact hacc

theorem rfind_not_mem {l : List Char} {c : Char} (h : c ∉ l) (a b : Nat) :
    rfind l c a b = -1 := by
  unfold rfind
  apply foldl_invariant (P := fun acc : Int => acc = -1)
  · rfl
  · intro acc i _ hacc
    have hne : ¬(l[i]? = some c) := by
      intro he
      exact h (List.getElem?_mem he)
    rw [if_neg hne]; exact hacc

theorem splitPoint_pos {remaining : List Char} {maxSize : Nat} (hmax : 1 ≤ maxSize) :
    1 ≤ splitPoint remaining maxSize := by
  simp only [splitPoint]
  rcases rfind_cases remaining '\n' (maxSize - 500) maxSize with h1 | h1 <;>
    rcases rfind_cases remaining ' ' (maxSize - 500) maxSize with h2 | h2 <;>
    split_ifs <;> omega

theorem splitPoint_le {remaining : List Char} {maxSize : Nat} (hmax : 1 ≤ maxSize) :
    splitPoint remaining maxSize ≤ maxSize := by
  simp only [splitPoint]
  rcases rfind_cases remaining '\n' (maxSize - 500) maxSize with h1 | h1 <;>
    rcases rfind_cases remaining ' ' (maxSize - 500) maxSize with h2 | h2 <;>
    split_ifs <;> omega

theorem forceSplitGo_bound {maxSize : Nat} (hmax : 1 ≤ maxSize) :
    ∀ (fuel : Nat) (rem : List Char), rem.length ≤ fuel →
      ∀ x ∈ forceSplitGo maxSize fuel rem, x.length ≤ maxSize := by
  intro fuel
  induction fuel with
  | zero =>
    intro rem hlen x hx
    have : rem = [] := List.length_eq_zero.mp (Nat.le_zero.mp hlen)
    subst this
    simp [forceSplitGo] at hx
  | succ fuel ih =>
    intro rem hlen x hx
    rw [forceSplitGo] at hx
    by_cases hle : rem.length ≤ maxSize
    · rw [if_pos hle] at hx
      split at hx
      · cases hx
      · rcases List.mem_singleton.mp hx with rfl
        exact hle
    · rw [if_neg hle] at hx
      rcases List.mem_cons.mp hx with rfl | hx'
      · calc (pyStrip (rem.take (splitPoint rem maxSize))).length
            ≤ (rem.take (splitPoint rem maxSize)).length := pyStrip_length_le _
          _ ≤ splitPoint rem maxSize := by rw [List.length_take]; omega
          _ ≤ maxSize := splitPoint_le hmax
      · apply ih (pyStrip (rem.drop (splitPoint rem maxSize))) _ x hx'
        have h1 : (pyStrip (rem.drop (splitPoint rem maxSize))).length ≤
            (rem.drop (splitPoint rem maxSize)).length := pyStrip_length_le _
        have h2 : (rem.drop (splitPoint rem maxSize)).length =
            rem.length - splitPoint rem maxSize := List.length_drop _ _
        have h3 : 1 ≤ splitPoint rem maxSize := splitPoint_pos hmax
        omega

theorem force_split_bound {maxSize : Nat} (hmax : 0 < maxSize) (t : List Char) :
    ∀ x ∈ force_split t maxSize, x.length ≤ maxSize :=
  forceSplitGo_bound hmax t.length t (Nat.le_refl _)

/-!
## Claim C1
-/

/-- Claim C1: for every input text and every maxSize > 0, every chunk
produced by `chunk_text text maxSize` has length at most `maxSize`.  The
final safety pass of `chunk_text` (base_processor.py lines 83-89) keeps
chunks that already fit and force-splits the rest, and `_force_split` only
emits pieces of length at most `maxSize`. -/
theorem C1_chunk_length_bound (text : List Char) (maxSize : Nat) (hmax : 0 < maxSize) :
    ∀ c ∈ chunk_text text maxSize, c.length ≤ maxSize := by
  intro c hc
  simp only [chunk_text, List.mem_flatten, List.mem_map] at hc
  obtain ⟨L, ⟨ch, hch, rfl⟩, hcL⟩ := hc
  by_cases h : maxSize < ch.length
  · rw [if_pos h] at hcL
    exact force_split_bound hmax ch c hcL
  · rw [if_neg h] at hcL
    rcases List.mem_singleton.mp hcL with rfl
    omega

/-- Witness for C1 at a concrete input. -/
theorem C1_witness :
    0 < 3 ∧ ['a', 'b'] ∈ chunk_text ("ab cd".toList) 3 ∧ (['a', 'b'] : List Char).length ≤ 3 :=
  ⟨by decide, by decide, C1_chunk_length_bound ("ab cd".toList) 3 (by decide) ['a', 'b'] (by decide)⟩

/-!
## Lemmas about the proofreading retry loop
-/

theorem proofreadRun_raise {gen : Nat → GenResult} (hg : ∀ n, (gen n).isRaise = true)
    (chunk : List Char) :
    ∀ (rem calls : Nat), 1 ≤ rem →
      proofreadRun gen chunk calls rem = (some chunk, calls + rem) := by
  intro rem
  induction rem with
  | zero => intro calls h; exact absurd h (by omega)
  | succ rem ih =>
    intro calls _
    cases hgc : gen calls with
    | text t =>
      exfalso
      have := hg calls
      rw [hgc] at this
      simp [GenResult.isRaise] at this
    | raise msg =>
      rw [proofreadRun, hgc]
      dsimp only
      by_cases ht : isTimeoutErr msg
      · rw [if_pos ht]
        by_cases hr : 0 < rem
        · rw [if_pos hr, ih (calls + 1) hr]
          have : calls + 1 + rem = calls + (rem + 1) := by omega
          rw [this]
        · rw [if_neg hr]
          have : rem = 0 := by omega
          subst this
          rfl
      · rw [if_neg ht]
        by_cases hr : 0 < rem
        · rw [if_pos hr, ih (calls + 1) hr]
          have : calls + 1 + rem = calls + (rem + 1) := by omega
          rw [this]
        · rw [if_neg hr]
          have : rem = 0 := by omega
          subst this
          rfl

theorem proofread_chunk_raise {gen : Nat → GenResult} (hg : ∀ n, (gen n).isRaise = true)
    (chunk : List Char) : proofread_chunk gen chunk = (some chunk, 3) := by
  unfold proofread_chunk
  rw [proofreadRun_raise hg chunk 3 0 (by omega)]

/-!
## Claim C3
-/

/-- Claim C3 (amended): a transform whose external call always raises —
whether classified transient-timeout or rate-limit/quota — invokes the
external model exactly 3 times per unit and the unit falls back to the
original chunk; no dispatcher-level retry occurs, because `proofread_chunk`
returns the original chunk instead of re-raising after exhausting its
attempts (proofreading_processor.py lines 98-117), so the exception handler
of `process_chunks_parallel` (base_processor.py lines 208-217) never runs. -/
theorem C3_retry_count (gen : Nat → GenResult) (chunk : List Char)
    (hg : ∀ n, (gen n).isRaise = true) :
    slotRunCount (proofreadProc gen) chunk = (chunk, 3) := by
  have hpr : proofread_chunk gen chunk = (some chunk, 3) := proofread_chunk_raise hg chunk
  simp only [slotRunCount, proofreadProc, hpr]
  simp [pyOrElse]

/-- Witness for C3 at a concrete always-quota-raising transform. -/
theorem C3_retry_count_witness :
    slotRunCount (proofreadProc alwaysQuota) ("hi".toList) = ("hi".toList, 3) :=
  C3_retry_count alwaysQuota ("hi".toList) (fun _ => rfl)

/-- Counterexample to C3 as stated: with a transform whose external call
always raises a rate-limit/quota error, the external model is invoked 3
times for the unit, not 4 — the dispatcher-level extra retry never fires. -/
theorem C3_counterexample :
    (slotRunCount (proofreadProc alwaysQuota) ("hi".toList)).2 = 3 ∧
      ¬(slotRunCount (proofreadProc alwaysQuota) ("hi".toList)).2 = 4 := by
  decide

/-!
## Dispatcher lemmas
-/

theorem runOrder_length (chunks : List (List Char)) (proc : List Char → PyResult) :
    ∀ (order : List Nat) (slots : List (Option (List Char))),
      (runOrder chunks proc order slots).length = slots.length := by
  intro order
  induction order with
  | nil => intro slots; rfl
  | cons j rest ih =>
    intro slots
    rw [runOrder, ih]
    simp

theorem runOrder_getElem?_not_mem (chunks : List (List Char)) (proc : List Char → PyResult) :
    ∀ (order : List Nat) (slots : List (Option (List Char))) (i : Nat), i ∉ order →
      (runOrder chunks proc order slots)[i]? = slots[i]? := by
  intro order
  induction order with
  | nil => intro slots i _; rfl
  | cons j rest ih =>
    intro slots i hi
    rw [runOrder, ih _ _ (fun h => hi (List.mem_cons_of_mem j h))]
    exact List.getElem?_set_ne
      (fun he => hi (by rw [← he]; exact List.mem_cons_self j rest))

theorem runOrder_getElem?_mem (chunks : List (List Char)) (proc : List Char → PyResult) :
    ∀ (order : List Nat) (slots : List (Option (List Char))) (i : Nat),
      i ∈ order → i < slots.length →
      (runOrder chunks proc order slots)[i]? =
        some (some (slotOutcome proc (chunks.getD i []))) := by
  intro order
  induction order with
  | nil => intro slots i hi _; cases hi
  | cons j rest ih =>
    intro slots i hi hlen
    rw [runOrder]
    by_cases hm : i ∈ rest
    · exact ih _ i hm (by simpa using hlen)
    · have hij : i = j := by
        rcases List.mem_cons.mp hi with h | h
        · exact h
        · exact absurd h hm
      subst hij
      rw [runOrder_getElem?_not_mem _ _ _ _ _ hm]
      exact List.getElem?_set_self hlen

theorem pcp_length (chunks : List (List Char)) (proc : List Char → PyResult)
    (order : List Nat) :
    (process_chunks_parallel chunks proc order).length = chunks.length := by
  unfold process_chunks_parallel
  rw [List.length_map, runOrder_length]
  simp

theorem pcp_getElem? (chunks : List (List Char)) (proc : List Char → PyResult)
    (order : List Nat) (i : Nat) (hp : order.Perm (List.range chunks.length))
    (hi : i < chunks.length) :
    (process_chunks_parallel chunks proc order)[i]? =
      some (slotOutcome proc (chunks.getD i [])) := by
  have hmem : i ∈ order := hp.mem_iff.mpr (List.mem_range.mpr hi)
  have hlen : i < (List.replicate chunks.length (none : Option (List Char))).length := by
    simpa using hi
  unfold process_chunks_parallel
  rw [List.getElem?_map, runOrder_getElem?_mem chunks proc order _ i hmem hlen]
  rfl

theorem pcp_getD (chunks : List (List Char)) (proc : List Char → PyResult)
    (order : List Nat) (i : Nat) (hp : order.Perm (List.range chunks.length))
    (hi : i < chunks.length) :
    (process_chunks_parallel chunks proc order).getD i [] =
      slotOutcome proc (chunks.getD i []) := by
  rw [List.getD_eq_getElem?_getD, pcp_getElem? chunks proc order i hp hi]
  rfl

theorem slotOutcome_cases (proc : List Char → PyResult) (ch : List Char) :
    slotOutcome proc ch = ch ∨ proc ch = PyResult.ok (some (slotOutcome proc ch)) := by
  unfold slotOutcome
  cases hp : proc ch with
  | ok v =>
    cases v with
    | none => left; rfl
    | some s =>
      by_cases hs : s.isEmpty
      · left; simp [pyOrElse, hs]
      · right; simp [pyOrElse, hs]
  | exn m =>
    left
    by_cases hr : isRateLimitMsg m <;> simp [hr]

theorem slotOutcome_of_ok_self {proc : List Char → PyResult} {ch : List Char}
    (h : proc ch = PyResult.ok (some ch)) : slotOutcome proc ch = ch := by
  simp only [slotOutcome, h, pyOrElse]
  split <;> rfl

/-!
## Claim C2
-/

/-- Claim C2: for every chunk list, every (deterministic) transform —
including one that raises on every call — and every completion order of the
futures, `process_chunks_parallel` returns normally (the embedding is total:
every exception from a future is caught at base_processor.py lines 205-220)
with a result of the same length as the input, in which slot `i` holds
either the transform's output for chunk `i` or chunk `i` itself, and the
result does not depend on the completion order. -/
theorem C2_dispatcher (chunks : List (List Char)) (proc : List Char → PyResult)
    (order : List Nat) (hp : order.Perm (List.range chunks.length)) :
    (process_chunks_parallel chunks proc order).length = chunks.length ∧
    (∀ i, i < chunks.length →
      (process_chunks_parallel chunks proc order).getD i [] = chunks.getD i [] ∨
      proc (chunks.getD i []) =
        PyResult.ok (some ((process_chunks_parallel chunks proc order).getD i []))) ∧
    process_chunks_parallel chunks proc order =
      process_chunks_parallel chunks proc (List.range chunks.length) := by
  refine ⟨pcp_length chunks proc order, ?_, ?_⟩
  · intro i hi
    rw [pcp_getD chunks proc order i hp hi]
    exact slotOutcome_cases proc (chunks.getD i [])
  · apply List.ext_getElem?
    intro i
    by_cases hi : i < chunks.length
    · rw [pcp_getElem? chunks proc order i hp hi,
        pcp_getElem? chunks proc (List.range chunks.length) i (List.Perm.refl _) hi]
    · have h1 : (process_chunks_parallel chunks proc order).length ≤ i := by
        rw [pcp_length]; omega
      have h2 : (process_chunks_parallel chunks proc (List.range chunks.length)).length ≤ i := by
        rw [pcp_length]; omega
      rw [List.getElem?_eq_none h1, List.getElem?_eq_none h2]

/-- Witness for C2: two chunks, an always-raising transform, reversed
completion order. -/
theorem C2_witness :
    (process_chunks_parallel [['a'], ['b']] (fun _ => PyResult.exn ("429".toList)) [1, 0]).length =
        ([['a'], ['b']] : List (List Char)).length ∧
    (∀ i, i < ([['a'], ['b']] : List (List Char)).length →
      (process_chunks_parallel [['a'], ['b']] (fun _ => PyResult.exn ("429".toList)) [1, 0]).getD i [] =
          ([['a'], ['b']] : List (List Char)).getD i [] ∨
      (fun _ => PyResult.exn ("429".toList)) (([['a'], ['b']] : List (List Char)).getD i []) =
        PyResult.ok (some ((process_chunks_parallel [['a'], ['b']]
          (fun _ => PyResult.exn ("429".toList)) [1, 0]).getD i []))) ∧
    process_chunks_parallel [['a'], ['b']] (fun _ => PyResult.exn ("429".toList)) [1, 0] =
      process_chunks_parallel [['a'], ['b']] (fun _ => PyResult.exn ("429".toList))
        (List.range ([['a'], ['b']] : List (List Char)).length) :=
  C2_dispatcher [['a'], ['b']] (fun _ => PyResult.exn ("429".toList)) [1, 0] (by decide)

/-!
## Claim C4
-/

/-- Claim C4: when the per-unit transform exhausts all retry attempts (its
external call always raises), the corresponding output slot of
`process_chunks_parallel` equals the original input chunk unchanged — no
error marker, no escaping exception (the unit degrades to a pass-through). -/
theorem C4_exhausted_fallback (gen : Nat → GenResult) (chunks : List (List Char))
    (order : List Nat) (i : Nat) (hp : order.Perm (List.range chunks.length))
    (hi : i < chunks.length) (hg : ∀ n, (gen n).isRaise = true) :
    (process_chunks_parallel chunks
        (fun ch => PyResult.ok (proofread_chunk gen ch).1) order).getD i [] =
      chunks.getD i [] := by
  rw [pcp_getD _ _ _ _ hp hi]
  exact slotOutcome_of_ok_self
    (by rw [proofread_chunk_raise hg (chunks.getD i [])])

/-- Witness for C4 at a concrete always-timeout transform. -/
theorem C4_witness :
    (process_chunks_parallel [['a']]
        (fun ch => PyResult.ok (proofread_chunk alwaysTimeout ch).1) [0]).getD 0 [] =
      ([['a']] : List (List Char)).getD 0 [] :=
  C4_exhausted_fallback alwaysTimeout [['a']] [0] 0 (by decide) (by decide) (fun _ => rfl)

/-!
## Claim C10
-/

/-- Claim C10: if the transform returns normally but its result for chunk
`i` is falsy (the empty string, or Python `None`), `process_chunks_parallel`
silently stores the original chunk `i` in slot `i` (base_processor.py line
207: `result if result else chunks[index]`), making an empty transform
output indistinguishable from a failed-and-fallen-back unit. -/
theorem C10_falsy_result_fallback (chunks : List (List Char))
    (proc : List Char → PyResult) (order : List Nat) (i : Nat)
    (hp : order.Perm (List.range chunks.length)) (hi : i < chunks.length)
    (he : proc (chunks.getD i []) = PyResult.ok (some []) ∨
      proc (chunks.getD i []) = PyResult.ok none) :
    (process_chunks_parallel chunks proc order).getD i [] = chunks.getD i [] := by
  rw [pcp_getD chunks proc order i hp hi]
  rcases he with h | h
  · simp only [slotOutcome, h, pyOrElse, List.isEmpty_nil, if_true]
  · simp only [slotOutcome, h, pyOrElse]

/-- Witness for C10: a transform returning the empty string. -/
theorem C10_witness :
    (process_chunks_parallel [['a']] (fun _ => PyResult.ok (some [])) [0]).getD 0 [] =
      ([['a']] : List (List Char)).getD 0 [] :=
  C10_falsy_result_fallback [['a']] (fun _ => PyResult.ok (some [])) [0] 0
    (by decide) (by decide) (Or.inl rfl)

/-!
## Claim C9
-/

theorem rateLimitAcquire_state (s : RateLimiterState) (t : ℚ) :
    (rateLimitAcquire s t).2.lastRequestTime = (rateLimitAcquire s t).1 := by
  simp only [rateLimitAcquire]
  split_ifs <;> rfl

theorem rateLimitAcquire_ge (s : RateLimiterState) (t : ℚ) :
    s.lastRequestTime + min_request_interval ≤ (rateLimitAcquire s t).1 := by
  simp only [rateLimitAcquire]
  split_ifs with h
  · dsimp only; linarith
  · dsimp only; linarith

/-- Claim C9 (amended): rate limiting is per processor instance.  Two
successive acquisitions through the same instance are spaced by at least
`min_request_interval` (the second returns no earlier than the first's
return time plus the interval). -/
theorem C9_per_instance_interval (s : RateLimiterState) (t1 t2 : ℚ) :
    (rateLimitAcquire s t1).1 + min_request_interval ≤
      (rateLimitAcquire (rateLimitAcquire s t1).2 t2).1 := by
  have h1 := rateLimitAcquire_state s t1
  have h2 := rateLimitAcquire_ge (rateLimitAcquire s t1).2 t2
  rw [h1] at h2
  exact h2

/-- Counterexample to C9 as stated: the limiter state is an instance
attribute and each job constructs its own processor
(process_document.py lines 39, 54, 70, 85), so two concurrent jobs hold two
states both equal to `limiterInit`.  Job A acquires at time 1 and returns at
time 1; job B acquires at time 1.01 — less than `min_request_interval`
after A's acquire returned — and returns immediately at 1.01 instead of
blocking until 1.05. -/
theorem C9_counterexample :
    (rateLimitAcquire limiterInit 1).1 = 1 ∧
      (rateLimitAcquire limiterInit (101 / 100)).1 = 101 / 100 ∧
      (101 / 100 : ℚ) < 1 + min_request_interval := by
  refine ⟨?_, ?_, ?_⟩
  · norm_num [rateLimitAcquire, limiterInit, min_request_interval]
  · norm_num [rateLimitAcquire, limiterInit, min_request_interval]
  · norm_num [min_request_interval]

/-!
## Claim C5
-/

/-- Claim C5 (code bug): `chunk_text` can emit an empty chunk.  On
`"\n\naaaa"` with `max_chunk_size = 3`, the whitespace-only accumulated
`current_chunk` (`"\n\n"`) is truthy, so the guard at base_processor.py
line 64 passes and line 65 appends `current_chunk.strip() = ""` — an empty
chunk — before the oversized paragraph is split.  The end-of-loop flushes
(lines 80-81, 130-131) re-check truthiness after stripping, showing the
intent that whitespace-only fragments be discarded. -/
theorem C5_empty_chunk_emitted :
    chunk_text c5text 3 = [[], ['a', 'a', 'a'], ['a']] ∧ [] ∈ chunk_text c5text 3 := by
  decide

/-!
## Claim C6 counterexample
-/

/-- Counterexample to C6 as stated: `"ab\n\nde\n\nf"` is non-empty, has
length 9 < 10, yet `chunk_text` with `max_chunk_size = 10` produces 2
chunks, because the greedy packing counts 2 extra separator characters per
paragraph (base_processor.py line 73). -/
theorem C6_counterexample :
    c6text ≠ [] ∧ c6text.length < 10 ∧ (chunk_text c6text 10).length = 2 ∧
      ¬(chunk_text c6text 10).length = 1 := by
  decide

/-!
## OCR assembly lemmas
-/

theorem runInserts_not_key :
    ∀ (order : List (Nat × List Char)) (m : Nat → Option (List Char)) (i : Nat),
      i ∉ order.map Prod.fst → runInserts order m i = m i := by
  intro order
  induction order with
  | nil => intro m i _; rfl
  | cons p rest ih =>
    intro m i hi
    have h1 : ¬i = p.1 := fun h => hi (by rw [List.map_cons, h]; exact List.mem_cons_self _ _)
    have h2 : i ∉ rest.map Prod.fst :=
      fun h => hi (by rw [List.map_cons]; exact List.mem_cons_of_mem _ h)
    rw [runInserts, ih _ i h2]
    unfold ocrInsert
    rw [if_neg h1]

theorem runInserts_mem :
    ∀ (order : List (Nat × List Char)) (m : Nat → Option (List Char)) (i : Nat) (v : List Char),
      (i, v) ∈ order → (order.map Prod.fst).Nodup → runInserts order m i = some v := by
  intro order
  induction order with
  | nil => intro m i v h _; cases h
  | cons p rest ih =>
    intro m i v hm hnd
    rw [List.map_cons, List.nodup_cons] at hnd
    rw [runInserts]
    rcases List.mem_cons.mp hm with he | hmem
    · have hp1 : p.1 = i := by rw [← he]
      have hkey : i ∉ rest.map Prod.fst := hp1 ▸ hnd.1
      rw [runInserts_not_key rest _ i hkey]
      unfold ocrInsert
      rw [if_pos hp1.symm, ← he]
    · exact ih _ i v hmem hnd.2

theorem filterMap_eq_map_of (l : List Nat) (f : Nat → Option (List Char))
    (g : Nat → List Char) (h : ∀ i ∈ l, f i = some (g i)) :
    l.filterMap f = l.map g := by
  induction l with
  | nil => rfl
  | cons a t ih =>
    rw [List.filterMap_cons, h a (List.mem_cons_self a t), List.map_cons,
      ih (fun i hi => h i (List.mem_cons_of_mem a hi))]

theorem map_getD_range (l : List (List Char)) :
    (List.range l.length).map (fun i => l.getD i []) = l := by
  induction l with
  | nil => rfl
  | cons a t ih =>
    rw [List.length_cons, List.range_succ_eq_map, List.map_cons, List.map_map]
    have : ((fun i => (a :: t).getD i []) ∘ (· + 1)) = fun i => t.getD i [] := by
      funext i
      simp [List.getD_cons_succ]
    rw [this, ih]
    rfl

theorem ocrPairs_keys (pageTexts : List (List Char)) :
    (ocrPairs pageTexts).map Prod.fst = List.range pageTexts.length := by
  unfold ocrPairs
  rw [List.map_map]
  exact List.map_id _

/-!
## Claim C8
-/

/-- Claim C8: for a 12-page document with batch size 5, the OCR batch loop
of `perform_ocr` processes 3 batches of sizes [5, 5, 2], and — because the
results dictionary is keyed by page index and the final assembly walks
`range(total_pages)` — the joined output contains exactly the 12 page texts
in page-index order, for every completion order of the per-page writes
(in particular even if a later batch's OCR calls completed before an
earlier batch's).  The hypothesis that every page's extracted text has
non-whitespace content is needed because `process_page` maps
whitespace-only extractions to `""`, which the final
`[t for t in final_text if t]` filter drops. -/
theorem C8_ocr_batches (pageTexts : List (List Char)) (order : List (Nat × List Char))
    (h12 : pageTexts.length = 12)
    (hne : ∀ t ∈ pageTexts, (pyStrip t).isEmpty = false)
    (hp : order.Perm (ocrPairs pageTexts)) :
    batchSizes pageTexts.length 5 = [5, 5, 2] ∧
    (perform_ocr pageTexts order).1 = pageTexts ∧
    (perform_ocr pageTexts order).1.length = 12 ∧
    (perform_ocr pageTexts order).2 = pyJoin nl2 pageTexts := by
  have hkeys : (order.map Prod.fst).Nodup := by
    rw [List.Perm.nodup_iff (hp.map Prod.fst)]
    rw [ocrPairs_keys]
    exact List.nodup_range _
  have hproc : pageTexts.map process_page = pageTexts := by
    have := List.map_congr_left (l := pageTexts) (f := process_page) (g := id)
      (fun t ht => by simp [process_page, hne t ht])
    rw [this, List.map_id]
  have hlookup : ∀ i ∈ List.range pageTexts.length,
      runInserts order (fun _ => none) i = some (pageTexts.getD i []) := by
    intro i hi
    have hmem : (i, (pageTexts.map process_page).getD i []) ∈ ocrPairs pageTexts := by
      unfold ocrPairs
      exact List.mem_map.mpr ⟨i, hi, rfl⟩
    rw [hproc] at hmem
    exact runInserts_mem order _ i _ (hp.mem_iff.mpr hmem) hkeys
  have hfinal : (perform_ocr pageTexts order).1 = pageTexts := by
    simp only [perform_ocr]
    rw [filterMap_eq_map_of _ _ _ hlookup, map_getD_range]
    apply List.filter_eq_self.mpr
    intro t ht
    have hst := hne t ht
    simp only [Bool.not_eq_true']
    cases t with
    | nil => simp [pyStrip] at hst
    | cons a s => rfl
  refine ⟨by rw [h12]; decide, hfinal, by rw [hfinal, h12], ?_⟩
  have : (perform_ocr pageTexts order).2 = pyJoin nl2 (perform_ocr pageTexts order).1 := rfl
  rw [this, hfinal]

/-- Witness for C8: 12 one-character pages, with the write order fully
reversed relative to page order. -/
theorem C8_witness :
    batchSizes (List.replicate 12 (['p'] : List Char)).length 5 = [5, 5, 2] ∧
    (perform_ocr (List.replicate 12 ['p'])
        ((ocrPairs (List.replicate 12 ['p'])).reverse)).1 = List.replicate 12 ['p'] ∧
    (perform_ocr (List.replicate 12 ['p'])
        ((ocrPairs (List.replicate 12 ['p'])).reverse)).1.length = 12 ∧
    (perform_ocr (List.replicate 12 ['p'])
        ((ocrPairs (List.replicate 12 ['p'])).reverse)).2 =
      pyJoin nl2 (List.replicate 12 ['p']) :=
  C8_ocr_batches (List.replicate 12 ['p']) ((ocrPairs (List.replicate 12 ['p'])).reverse)
    (by decide) (by decide) (List.reverse_perm _)

/-!
## Split/join lemmas for the paragraph splitter
-/

theorem pySplitGo_ne_nil (sep : List Char) :
    ∀ (fuel : Nat) (text : List Char), pySplitGo sep fuel text ≠ [] := by
  intro fuel text
  cases text with
  | nil => cases fuel <;> simp [pySplitGo]
  | cons c rest =>
    cases fuel with
    | zero => simp [pySplitGo]
    | succ f =>
      rw [pySplitGo]
      by_cases hp : sep.isPrefixOf (c :: rest)
      · simp [hp]
      · rw [if_neg hp]
        cases hgo : pySplitGo sep f rest with
        | nil => simp
        | cons piece pieces => simp

theorem pyJoin_cons_cons (sep : List Char) (c : Char) (p : List Char)
    (ps : List (List Char)) :
    pyJoin sep ((c :: p) :: ps) = c :: pyJoin sep (p :: ps) := by
  cases ps with
  | nil => rfl
  | cons q qs => rfl

theorem pyJoin_nil_cons (sep : List Char) (ps : List (List Char)) (h : ps ≠ []) :
    pyJoin sep ([] :: ps) = sep ++ pyJoin sep ps := by
  cases ps with
  | nil => exact absurd rfl h
  | cons q qs => rfl

theorem pySplitGo_join (sep : List Char) (hsep : sep ≠ []) :
    ∀ (fuel : Nat) (text : List Char), text.length ≤ fuel →
      pyJoin sep (pySplitGo sep fuel text) = text := by
  intro fuel
  induction fuel with
  | zero =>
    intro text hlen
    have : text = [] := List.length_eq_zero.mp (Nat.le_zero.mp hlen)
    subst this
    rfl
  | succ fuel ih =>
    intro text hlen
    cases text with
    | nil => rfl
    | cons c rest =>
      rw [pySplitGo]
      have hslen : 1 ≤ sep.length := by
        cases sep with
        | nil => exact absurd rfl hsep
        | cons s ss => simp
      by_cases hp : sep.isPrefixOf (c :: rest)
      · rw [if_pos hp]
        have hpre : sep <+: (c :: rest) := List.isPrefixOf_iff_prefix.mp hp
        rw [pyJoin_nil_cons sep _ (pySplitGo_ne_nil sep _ _)]
        rw [ih _ (by rw [List.length_drop]; simp only [List.length_cons] at hlen ⊢; omega)]
        exact List.prefix_iff_eq_append.mp hpre
      · rw [if_neg hp]
        cases hgo : pySplitGo sep fuel rest with
        | nil => exact absurd hgo (pySplitGo_ne_nil sep fuel rest)
        | cons piece pieces =>
          have hrest := ih rest (by simp only [List.length_cons] at hlen; omega)
          rw [hgo] at hrest
          dsimp only
          rw [pyJoin_cons_cons, hrest]

theorem pySplit_join (sep text : List Char) (hsep : sep ≠ []) :
    pyJoin sep (pySplit sep text) = text :=
  pySplitGo_join sep hsep text.length text (Nat.le_refl _)

theorem flatten_map_append (sep : List Char) :
    ∀ (ps : List (List Char)), ps ≠ [] →
      (ps.map (fun p => p ++ sep)).flatten = pyJoin sep ps ++ sep := by
  intro ps
  induction ps with
  | nil => intro h; exact absurd rfl h
  | cons p t ih =>
    intro _
    cases t with
    | nil => simp [pyJoin]
    | cons q qs =>
      rw [List.map_cons, List.flatten_cons, ih (by simp)]
      have hq : pyJoin sep (p :: q :: qs) = p ++ sep ++ pyJoin sep (q :: qs) := rfl
      rw [hq]
      simp [List.append_assoc]

/-!
## The greedy paragraph fold when everything fits
-/

theorem chunk_fold_no_flush (maxSize : Nat) :
    ∀ (ps : List (List Char)) (ch : List (List Char)) (cur : List Char),
      cur.length + ((ps.map (fun p => p ++ nl2)).flatten).length ≤ maxSize →
      ps.foldl (chunkStep maxSize) ⟨ch, cur⟩ =
        ⟨ch, cur ++ (ps.map (fun p => p ++ nl2)).flatten⟩ := by
  intro ps
  induction ps with
  | nil => intro ch cur _; simp
  | cons p t ih =>
    intro ch cur hlen
    have hnl : nl2.length = 2 := rfl
    rw [List.map_cons, List.flatten_cons] at hlen ⊢
    simp only [List.length_append] at hlen
    rw [List.foldl_cons]
    have hstep : chunkStep maxSize ⟨ch, cur⟩ p = ⟨ch, cur ++ p ++ nl2⟩ := by
      simp only [chunkStep]
      rw [if_neg (by omega : ¬maxSize < p.length)]
      rw [if_neg (by omega : ¬maxSize < cur.length + p.length + 2)]
    rw [hstep]
    rw [ih ch (cur ++ p ++ nl2) (by simp only [List.length_append]; omega)]
    simp [List.append_assoc]

/-!
## Claim C6 (amended)
-/

/-- Claim C6 (amended): for every input whose length is at most
`maxSize - 2`, `chunk_text` returns exactly one chunk — the stripped input —
when the input contains a non-whitespace character, and the empty sequence
when it does not; and the empty input yields the empty sequence for every
`maxSize`.  (The claim as stated, with only `length < maxSize`, fails
because the greedy packing counts 2 separator characters per paragraph.) -/
theorem C6_single_chunk (text : List Char) (maxSize : Nat) :
    (text.length + 2 ≤ maxSize →
      chunk_text text maxSize = if (pyStrip text).isEmpty then [] else [pyStrip text]) ∧
    chunk_text [] maxSize = [] := by
  have hnl2 : (nl2 : List Char) ≠ [] := by simp [nl2]
  constructor
  · intro hlen
    have hflat : ((pySplit nl2 text).map (fun p => p ++ nl2)).flatten = text ++ nl2 := by
      rw [flatten_map_append nl2 (pySplit nl2 text) (pySplitGo_ne_nil nl2 _ _),
        pySplit_join nl2 text hnl2]
    have hfold := chunk_fold_no_flush maxSize (pySplit nl2 text) [] []
      (by rw [hflat]; simp only [List.length_nil, List.length_append]; simp only [nl2]; simp; omega)
    rw [hflat] at hfold
    simp only [chunk_text]
    rw [hfold]
    simp only [List.nil_append]
    have hstrip : pyStrip (text ++ nl2) = pyStrip text :=
      pyStrip_append_ws (by decide)
    rw [hstrip]
    by_cases hemp : (pyStrip text).isEmpty
    · rw [if_pos hemp]
      rfl
    · rw [if_neg hemp]
      have hb : ¬maxSize < (pyStrip text).length := by
        have := pyStrip_length_le text
        omega
      simp [hb]
  · simp only [chunk_text]
    have h0 : pySplit nl2 [] = [[]] := rfl
    rw [h0, List.foldl_cons, List.foldl_nil]
    have hstep : chunkStep maxSize ⟨[], []⟩ [] = ⟨[], nl2⟩ := by
      simp only [chunkStep]
      rw [if_neg (by simp : ¬maxSize < ([] : List Char).length)]
      by_cases h2 : maxSize < ([] : List Char).length + ([] : List Char).length + 2
      · rw [if_pos h2]
        simp
      · rw [if_neg h2]
        simp
    rw [hstep]
    have hse : (pyStrip nl2).isEmpty = true := by decide
    rw [hse]
    simp

/-- Witness for C6 at concrete inputs. -/
theorem C6_witness :
    chunk_text ("hi".toList) 10 =
        (if (pyStrip ("hi".toList)).isEmpty then [] else [pyStrip ("hi".toList)]) ∧
      chunk_text [] 10 = [] :=
  ⟨(C6_single_chunk ("hi".toList) 10).1 (by decide), (C6_single_chunk [] 10).2⟩

/-!
## Symbolic evaluation lemmas for pySplit
-/

theorem pySplitGo_fuel (sep : List Char) (hsep : sep ≠ []) :
    ∀ (f : Nat) (text : List Char) (g : Nat), text.length ≤ f → text.length ≤ g →
      pySplitGo sep f text = pySplitGo sep g text := by
  intro f
  induction f with
  | zero =>
    intro text g hf _
    have : text = [] := List.length_eq_zero.mp (Nat.le_zero.mp hf)
    subst this
    cases g <;> rfl
  | succ f ih =>
    intro text g hf hg
    cases text with
    | nil => cases g <;> rfl
    | cons c rest =>
      cases g with
      | zero => simp at hg
      | succ g' =>
        rw [pySplitGo, pySplitGo]
        have hslen : 1 ≤ sep.length := by
          cases sep with
          | nil => exact absurd rfl hsep
          | cons s ss => simp
        by_cases hp : sep.isPrefixOf (c :: rest)
        · rw [if_pos hp, if_pos hp]
          rw [ih ((c :: rest).drop sep.length) g'
            (by rw [List.length_drop]; simp only [List.length_cons] at hf ⊢; omega)
            (by rw [List.length_drop]; simp only [List.length_cons] at hg ⊢; omega)]
        · rw [if_neg hp, if_neg hp]
          rw [ih rest g' (by simp only [List.length_cons] at hf; omega)
            (by simp only [List.length_cons] at hg; omega)]

theorem pySplitGo_prepend (s0 : Char) (stail : List Char) :
    ∀ (a b : List Char) (fuel : Nat), s0 ∉ a →
      (a ++ (s0 :: stail) ++ b).length ≤ fuel →
      pySplitGo (s0 :: stail) fuel (a ++ (s0 :: stail) ++ b) =
        a :: pySplit (s0 :: stail) b := by
  intro a
  induction a with
  | nil =>
    intro b fuel _ hlen
    simp only [List.nil_append, List.cons_append] at hlen ⊢
    cases fuel with
    | zero => simp at hlen
    | succ f =>
      rw [pySplitGo]
      have hp : (s0 :: stail).isPrefixOf (s0 :: (stail ++ b)) = true := by
        apply List.isPrefixOf_iff_prefix.mpr
        rw [← List.cons_append]
        exact List.prefix_append _ _
      rw [if_pos hp]
      have hdrop : (s0 :: (stail ++ b)).drop (s0 :: stail).length = b := by
        rw [← List.cons_append]
        exact List.drop_left _ _
      rw [hdrop]
      rw [pySplitGo_fuel (s0 :: stail) (by simp) f b b.length
        (by simp only [List.length_cons, List.length_append] at hlen; omega) (Nat.le_refl _)]
      rfl
  | cons x a' ih =>
    intro b fuel hx hlen
    simp only [List.cons_append] at hlen ⊢
    cases fuel with
    | zero => simp at hlen
    | succ f =>
      rw [pySplitGo]
      have hxs : ¬(s0 = x) := fun h => hx (h ▸ List.mem_cons_self x a')
      have hp : (s0 :: stail).isPrefixOf (x :: (a' ++ (s0 :: stail) ++ b)) = false := by
        simp [List.isPrefixOf, hxs]
      rw [hp]
      simp only [Bool.false_eq_true, if_false]
      rw [ih b f (fun h => hx (List.mem_cons_of_mem x h))
        (by simp only [List.length_cons] at hlen; omega)]

theorem pySplit_prepend (s0 : Char) (stail : List Char) (a b : List Char) (ha : s0 ∉ a) :
    pySplit (s0 :: stail) (a ++ (s0 :: stail) ++ b) = a :: pySplit (s0 :: stail) b :=
  pySplitGo_prepend s0 stail a b _ ha (Nat.le_refl _)

theorem pySplitGo_no_occurrence (sep : List Char) :
    ∀ (fuel : Nat) (text : List Char), text.length ≤ fuel →
      containsSub sep text = false → pySplitGo sep fuel text = [text] := by
  intro fuel
  induction fuel with
  | zero =>
    intro text hlen _
    have : text = [] := List.length_eq_zero.mp (Nat.le_zero.mp hlen)
    subst this
    rfl
  | succ f ih =>
    intro text hlen hc
    cases text with
    | nil => rfl
    | cons c rest =>
      rw [containsSub, Bool.or_eq_false_iff] at hc
      rw [pySplitGo, hc.1]
      simp only [Bool.false_eq_true, if_false]
      rw [ih rest (by simp only [List.length_cons] at hlen; omega) hc.2]

theorem pySplit_no_occurrence (sep text : List Char) (hc : containsSub sep text = false) :
    pySplit sep text = [text] :=
  pySplitGo_no_occurrence sep text.length text (Nat.le_refl _) hc

/-!
## Symbolic evaluation of the force split on the C7 padding
-/

theorem pyStrip_replicate_x (n : Nat) :
    pyStrip (List.replicate n 'x') = List.replicate n 'x' :=
  pyStrip_no_space (fun c hc => by rw [List.eq_of_mem_replicate hc]; rfl)

theorem newline_not_mem_replicate_x (n : Nat) : '\n' ∉ List.replicate n 'x' := by
  intro h
  exact absurd (List.eq_of_mem_replicate h) (by decide)

theorem space_not_mem_replicate_x (n : Nat) : ' ' ∉ List.replicate n 'x' := by
  intro h
  exact absurd (List.eq_of_mem_replicate h) (by decide)

theorem splitPoint_replicate_x (n : Nat) :
    splitPoint (List.replicate n 'x') 15000 = 15000 := by
  simp only [splitPoint]
  rw [rfind_not_mem (newline_not_mem_replicate_x n),
    rfind_not_mem (space_not_mem_replicate_x n)]
  norm_num

theorem force_split_replicate_19957 :
    force_split (List.replicate 19957 'x') 15000 =
      [List.replicate 15000 'x', List.replicate 4957 'x'] := by
  unfold force_split
  rw [List.length_replicate]
  rw [show (19957 : Nat) = 19956 + 1 from rfl, forceSplitGo]
  rw [if_neg (by rw [List.length_replicate]; omega)]
  rw [splitPoint_replicate_x, List.take_replicate, List.drop_replicate]
  rw [show min 15000 19957 = 15000 from by norm_num,
    show (19957 - 15000 : Nat) = 4957 from by norm_num]
  rw [pyStrip_replicate_x, pyStrip_replicate_x]
  rw [show (19956 : Nat) = 19955 + 1 from rfl, forceSplitGo]
  rw [if_pos (by rw [List.length_replicate]; omega)]
  rw [if_neg (by simp [List.isEmpty_iff])]

/-!
## Symbolic evaluation of the segment fold for C7
-/

theorem slsRun_cons (maxSize : Nat) (bd : List Char) (st : ChunkState)
    (seg s : List Char) (rest : List (List Char)) :
    slsRun maxSize bd st (seg :: s :: rest) =
      slsRun maxSize bd (slsStep maxSize st (seg ++ bd)) (s :: rest) := rfl

theorem slsRun_single (maxSize : Nat) (bd : List Char) (st : ChunkState)
    (seg : List Char) :
    slsRun maxSize bd st [seg] = slsStep maxSize st seg := rfl

/-!
## Evaluation of the chunker on the C7 scenario input
-/

theorem c7_not_mem_p2 {c : Char} (hw : c ∉ c7w) (hx : ¬c = 'x') : c ∉ c7p2 := by
  unfold c7p2
  intro h
  rcases List.mem_append.mp h with h1 | h1
  · exact hw h1
  · exact hx (List.eq_of_mem_replicate h1)

theorem c7_find : delimitersList.find? (fun d => containsSub d c7p2) = some [' '] := by
  have h1 : containsSub ['।'] c7p2 = false :=
    containsSub_head_not_mem (c7_not_mem_p2 (by decide) (by decide))
  have h2 : containsSub ['॥'] c7p2 = false :=
    containsSub_head_not_mem (c7_not_mem_p2 (by decide) (by decide))
  have h3 : containsSub ['।', ' '] c7p2 = false :=
    containsSub_head_not_mem (c7_not_mem_p2 (by decide) (by decide))
  have h4 : containsSub ['?', ' '] c7p2 = false :=
    containsSub_head_not_mem (c7_not_mem_p2 (by decide) (by decide))
  have h5 : containsSub ['!', ' '] c7p2 = false :=
    containsSub_head_not_mem (c7_not_mem_p2 (by decide) (by decide))
  have h6 : containsSub ['.', ' '] c7p2 = false :=
    containsSub_head_not_mem (c7_not_mem_p2 (by decide) (by decide))
  have h7 : containsSub ['\n'] c7p2 = false :=
    containsSub_head_not_mem (c7_not_mem_p2 (by decide) (by decide))
  have h8 : containsSub ['\t'] c7p2 = false :=
    containsSub_head_not_mem (c7_not_mem_p2 (by decide) (by decide))
  have h9 : containsSub [' '] c7p2 = true :=
    containsSub_singleton_of_mem (by unfold c7p2; exact List.mem_append_left _ (by decide))
  unfold delimitersList
  rw [List.find?_cons_of_neg _ (by rw [h1]; decide),
    List.find?_cons_of_neg _ (by rw [h2]; decide),
    List.find?_cons_of_neg _ (by rw [h3]; decide),
    List.find?_cons_of_neg _ (by rw [h4]; decide),
    List.find?_cons_of_neg _ (by rw [h5]; decide),
    List.find?_cons_of_neg _ (by rw [h6]; decide),
    List.find?_cons_of_neg _ (by rw [h7]; decide),
    List.find?_cons_of_neg _ (by rw [h8]; decide),
    List.find?_cons_of_pos _ (by rw [h9])]


theorem slsStep_big (maxSize : Nat) (st : ChunkState) (swd : List Char)
    (h : maxSize < swd.length) (hcur : st.current.isEmpty = false) :
    slsStep maxSize st swd =
      ⟨(st.chunks ++ [pyStrip st.current]) ++ force_split swd maxSize, []⟩ := by
  simp only [slsStep, if_pos h, hcur, Bool.false_eq_true, if_false]

theorem chunkStep_big (maxSize : Nat) (st : ChunkState) (p : List Char)
    (h : maxSize < p.length) (hcur : st.current.isEmpty = false) :
    chunkStep maxSize st p =
      ⟨(st.chunks ++ [pyStrip st.current]) ++ split_large_text p maxSize, []⟩ := by
  simp only [chunkStep, if_pos h, hcur, Bool.false_eq_true, if_false]

theorem split_large_text_eq (text : List Char) (maxSize : Nat) (bd : List Char)
    (hfind : delimitersList.find? (fun d => containsSub d text) = some bd) :
    split_large_text text maxSize =
      (if (pyStrip (slsRun maxSize bd ⟨[], []⟩ (pySplit bd text)).current).isEmpty
       then (slsRun maxSize bd ⟨[], []⟩ (pySplit bd text)).chunks
       else (slsRun maxSize bd ⟨[], []⟩ (pySplit bd text)).chunks ++
         [pyStrip (slsRun maxSize bd ⟨[], []⟩ (pySplit bd text)).current]) := by
  unfold split_large_text
  rw [hfind]

theorem c7s_e1 : c7p2 = "Paragraph".toList ++ [' '] ++
    ("two".toList ++ [' '] ++ ("is".toList ++ [' '] ++ ("very".toList ++ [' '] ++
      ("long".toList ++ [' '] ++ List.replicate 19957 'x')))) := by
  unfold c7p2 c7w
  rw [show "Paragraph two is very long ".toList =
    "Paragraph".toList ++ [' '] ++ ("two".toList ++ [' '] ++ ("is".toList ++ [' '] ++
      ("very".toList ++ [' '] ++ ("long".toList ++ [' '])))) from by decide]
  simp only [List.append_assoc]

theorem c7_segments :
    pySplit [' '] c7p2 =
      ["Paragraph".toList, "two".toList, "is".toList, "very".toList, "long".toList,
        List.replicate 19957 'x'] := by
  rw [c7s_e1, pySplit_prepend ' ' [] _ _ (by decide), pySplit_prepend ' ' [] _ _ (by decide),
    pySplit_prepend ' ' [] _ _ (by decide), pySplit_prepend ' ' [] _ _ (by decide),
    pySplit_prepend ' ' [] _ _ (by decide),
    pySplit_no_occurrence [' '] _ (containsSub_head_not_mem (space_not_mem_replicate_x _))]

theorem c7_fold :
    slsRun 15000 [' '] ⟨[], []⟩
        ["Paragraph".toList, "two".toList, "is".toList, "very".toList, "long".toList,
          List.replicate 19957 'x'] =
      ⟨["Paragraph two is very long".toList, List.replicate 15000 'x',
        List.replicate 4957 'x'], []⟩ := by
  rw [slsRun_cons, show slsStep 15000 ⟨[], []⟩ ("Paragraph".toList ++ [' ']) =
      (⟨[], "Paragraph ".toList⟩ : ChunkState) from by decide,
    slsRun_cons, show slsStep 15000 ⟨[], "Paragraph ".toList⟩ ("two".toList ++ [' ']) =
      (⟨[], "Paragraph two ".toList⟩ : ChunkState) from by decide,
    slsRun_cons, show slsStep 15000 ⟨[], "Paragraph two ".toList⟩ ("is".toList ++ [' ']) =
      (⟨[], "Paragraph two is ".toList⟩ : ChunkState) from by decide,
    slsRun_cons, show slsStep 15000 ⟨[], "Paragraph two is ".toList⟩ ("very".toList ++ [' ']) =
      (⟨[], "Paragraph two is very ".toList⟩ : ChunkState) from by decide,
    slsRun_cons, show slsStep 15000 ⟨[], "Paragraph two is very ".toList⟩
      ("long".toList ++ [' ']) = (⟨[], c7w⟩ : ChunkState) from by decide,
    slsRun_single,
    slsStep_big 15000 ⟨[], c7w⟩ (List.replicate 19957 'x')
      (by rw [List.length_replicate]; omega) (by decide),
    force_split_replicate_19957,
    show pyStrip c7w = "Paragraph two is very long".toList from by decide]
  rfl

theorem c7_sls : split_large_text c7p2 15000 =
    ["Paragraph two is very long".toList, List.replicate 15000 'x',
      List.replicate 4957 'x'] := by
  rw [split_large_text_eq c7p2 15000 [' '] c7_find, c7_segments, c7_fold]
  rfl

theorem chunk_text_eq (text : List Char) (maxSize : Nat) :
    chunk_text text maxSize =
      ((if (pyStrip ((pySplit nl2 text).foldl (chunkStep maxSize) ⟨[], []⟩).current).isEmpty
        then ((pySplit nl2 text).foldl (chunkStep maxSize) ⟨[], []⟩).chunks
        else ((pySplit nl2 text).foldl (chunkStep maxSize) ⟨[], []⟩).chunks ++
          [pyStrip ((pySplit nl2 text).foldl (chunkStep maxSize) ⟨[], []⟩).current]).map
        (fun c => if maxSize < c.length then force_split c maxSize else [c])).flatten := rfl

theorem c7_eval : chunk_text c7text 15000 =
    [c7p1, "Paragraph two is very long".toList, List.replicate 15000 'x',
      List.replicate 4957 'x'] := by
  have htext : c7text = c7p1 ++ nl2 ++ c7p2 := by
    unfold c7text c7prefix c7p1 c7p2 c7w nl2
    rw [show "Paragraph one.\n\nParagraph two is very long ".toList =
      "Paragraph one.".toList ++ ['\n', '\n'] ++ "Paragraph two is very long ".toList
      from by decide]
    simp only [List.append_assoc]
  have hpars : pySplit nl2 c7text = [c7p1, c7p2] := by
    rw [htext, show (nl2 : List Char) = '\n' :: ['\n'] from rfl,
      pySplit_prepend '\n' ['\n'] c7p1 c7p2 (by decide),
      pySplit_no_occurrence _ _
        (containsSub_head_not_mem (c7_not_mem_p2 (by decide) (by decide)))]
  have hbig : 15000 < c7p2.length := by
    unfold c7p2
    rw [List.length_append, List.length_replicate]
    have : c7w.length = 27 := by decide
    omega
  rw [chunk_text_eq, hpars, List.foldl_cons,
    show chunkStep 15000 ⟨[], []⟩ c7p1 = (⟨[], c7p1 ++ nl2⟩ : ChunkState) from by decide,
    List.foldl_cons,
    chunkStep_big 15000 ⟨[], c7p1 ++ nl2⟩ c7p2 hbig (by decide),
    List.foldl_nil,
    c7_sls,
    show pyStrip ((ChunkState.mk [] (c7p1 ++ nl2)).current) = c7p1 from by decide]
  have hm : (pyStrip ((ChunkState.mk
      (((ChunkState.mk [] (c7p1 ++ nl2)).chunks ++ [c7p1]) ++
        ["Paragraph two is very long".toList, List.replicate 15000 'x',
          List.replicate 4957 'x']) []).current)).isEmpty = true := rfl
  rw [if_pos hm]
  dsimp only
  simp only [List.nil_append, List.cons_append, List.map_cons, List.map_nil]
  have l1 : ¬(15000 < c7p1.length) := by decide
  have l2 : ¬(15000 < ("Paragraph two is very long".toList).length) := by decide
  have l3 : ¬(15000 < (List.replicate 15000 'x').length) := by
    rw [List.length_replicate]; omega
  have l4 : ¬(15000 < (List.replicate 4957 'x').length) := by
    rw [List.length_replicate]; omega
  rw [if_neg l1, if_neg l2, if_neg l3, if_neg l4]
  simp only [List.flatten_cons, List.flatten_nil, List.cons_append, List.nil_append,
    List.append_nil]

/-- Counterexample to C7 as stated: the scenario input (total length 20000,
short first paragraph, long second paragraph) with `maxSize = 15000` yields
4 chunks, not 2. -/
theorem C7_counterexample :
    c7text.length = 20000 ∧ (chunk_text c7text 15000).length = 4 ∧
      ¬(chunk_text c7text 15000).length = 2 := by
  have hlen : c7text.length = 20000 := by
    unfold c7text
    rw [List.length_append, List.length_replicate]
    have : c7prefix.length = 43 := by decide
    omega
  refine ⟨hlen, ?_, ?_⟩
  · rw [c7_eval]
    rfl
  · rw [c7_eval]
    decide

/-- Claim C7 (amended): on the scenario input — "Paragraph one." then a
second paragraph of 19984 characters, total length 20000 — `chunk_text`
with `maxSize = 15000` produces exactly 4 chunks: the first paragraph, the
second paragraph's leading words, and two force-split pieces of its long
token; none exceeds 15000 characters and chunk 1 is the first paragraph,
ending at the paragraph boundary before the second paragraph's content. -/
theorem C7_two_paragraph_scenario :
    chunk_text c7text 15000 =
      [c7p1, "Paragraph two is very long".toList, List.replicate 15000 'x',
        List.replicate 4957 'x'] ∧
    (chunk_text c7text 15000).length = 4 ∧
    (∀ c ∈ chunk_text c7text 15000, c.length ≤ 15000) ∧
    (chunk_text c7text 15000).getD 0 [] = c7p1 := by
  refine ⟨c7_eval, by rw [c7_eval]; rfl, ?_, by rw [c7_eval]; rfl⟩
  intro c hc
  rw [c7_eval] at hc
  simp only [List.mem_cons, List.not_mem_nil, or_false] at hc
  rcases hc with rfl | rfl | rfl | rfl
  · decide
  · decide
  · rw [List.length_replicate]
  · rw [List.length_replicate]; omega
